import Mathlib

/-!
Verification of the Santa Monica events scraper (`script.py`).

The scraper's core logic is pure: a 12-hour time parser
(`parse_time_to_minutes`), a date parser used for sorting
(`parse_date_for_sorting` and the inlined copies in
`filter_events_by_week`), week filtering/sorting, grouping by date
(`organize_events_by_date`), multi-step description collection with
deduplication and a denylist filter (`extract_description`), and the
per-link failure recovery of the scraping loop.

Modelling conventions:
* Strings are processed as `List Char` (Python `str` code points).
* Python `datetime` values produced by `strptime` are midnight dates,
  modelled by `Date` (year/month/day) and compared through their
  proleptic-Gregorian ordinal `toOrdinal` (Python `date.toordinal`).
  `datetime.max`, strictly above every parseable date, is modelled by
  the key `dtMaxKey` (see `dateKey`).
* The fragments of `strptime` used by the script (`"%I:%M %p"`,
  `"%b %d, %Y"`, `"%Y-%m-%d"`) are translated from CPython's
  `_strptime` regexes; the regex alternations are deterministic here
  because every alternative is followed by a non-digit literal.
-/

/-- ASCII whitespace recognized by Python's `str.strip` and `\s`. -/
def isPySpace (c : Char) : Bool :=
  c = ' ' || c = '\t' || c = '\n' || c = '\r' || c = '\x0b' || c = '\x0c'

/-- Python `str.strip()` on a code-point list. -/
def pyStrip (cs : List Char) : List Char :=
  ((cs.dropWhile isPySpace).reverse.dropWhile isPySpace).reverse

/-- Python substring test `needle in hay` (`needle` nonempty or trivially true). -/
def listContains (hay needle : List Char) : Bool :=
  if needle.isPrefixOf hay then true
  else
    match hay with
    | [] => false
    | _ :: t => listContains t needle

/-- Python `str.split(sep)` for a nonempty separator: leftmost-first,
non-overlapping, keeps empty segments.  Structural recursion on a fuel
parameter (`fuel ≥ cs.length` makes the fuel-exhausted branch unreachable). -/
def splitChAux (sep : List Char) : Nat → List Char → List (List Char)
  | 0, cs => [cs]
  | fuel + 1, cs =>
    if sep ≠ [] ∧ sep.isPrefixOf cs ∧ cs ≠ [] then
      [] :: splitChAux sep fuel (cs.drop sep.length)
    else
      match cs with
      | [] => [[]]
      | c :: rest =>
        match splitChAux sep fuel rest with
        | s :: ss => (c :: s) :: ss
        | [] => [[c]]

def splitCh (sep cs : List Char) : List (List Char) :=
  splitChAux sep cs.length cs

/-- Python `str.split()` (no argument): split on whitespace runs, dropping
empty pieces.  `acc` holds the current in-progress word, reversed. -/
def pyWordsAux : List Char → List Char → List (List Char)
  | [], [] => []
  | [], acc => [acc.reverse]
  | c :: t, acc =>
    if isPySpace c then
      match acc with
      | [] => pyWordsAux t []
      | _ => acc.reverse :: pyWordsAux t []
    else pyWordsAux t (c :: acc)

def pyWords (cs : List Char) : List (List Char) := pyWordsAux cs []

/-- ASCII lowercase, as Python `str.lower` acts on ASCII text. -/
def toLowerL (cs : List Char) : List Char := cs.map Char.toLower

/-- Digit-character tests for the `strptime` regex character classes. -/
def isDig (c : Char) : Bool :=
  c = '0' || c = '1' || c = '2' || c = '3' || c = '4' || c = '5' || c = '6' ||
    c = '7' || c = '8' || c = '9'

def isDig19 (c : Char) : Bool :=
  c = '1' || c = '2' || c = '3' || c = '4' || c = '5' || c = '6' || c = '7' ||
    c = '8' || c = '9'

def isDig05 (c : Char) : Bool :=
  c = '0' || c = '1' || c = '2' || c = '3' || c = '4' || c = '5'

/-- Numeric value of a digit character (0 for non-digits). -/
def digitVal (c : Char) : Nat :=
  if c = '1' then 1 else if c = '2' then 2 else if c = '3' then 3
  else if c = '4' then 4 else if c = '5' then 5 else if c = '6' then 6
  else if c = '7' then 7 else if c = '8' then 8 else if c = '9' then 9 else 0

/-- The digit character of `d % 10`-style values (only used for `d ≤ 9`). -/
def digitChar : Nat → Char
  | 0 => '0' | 1 => '1' | 2 => '2' | 3 => '3' | 4 => '4'
  | 5 => '5' | 6 => '6' | 7 => '7' | 8 => '8' | 9 => '9'
  | _ => '*'

/-- A Python `datetime` date (time-of-day is always midnight in this program). -/
structure Date where
  year : Nat
  month : Nat
  day : Nat
deriving DecidableEq, Repr

/-- Gregorian leap-year test (as in CPython's `datetime`). -/
def isLeap (y : Nat) : Bool :=
  y % 4 = 0 && (y % 100 ≠ 0 || y % 400 = 0)

/-- Days in the months before month `m` of a non-leap year. -/
def monthBase : Nat → Nat
  | 1 => 0 | 2 => 31 | 3 => 59 | 4 => 90 | 5 => 120 | 6 => 151
  | 7 => 181 | 8 => 212 | 9 => 243 | 10 => 273 | 11 => 304 | 12 => 334
  | _ => 0

def daysBeforeMonth (y m : Nat) : Nat :=
  monthBase m + (if 2 < m ∧ isLeap y then 1 else 0)

def daysInMonth (y m : Nat) : Nat :=
  match m with
  | 1 => 31 | 2 => if isLeap y then 29 else 28 | 3 => 31 | 4 => 30
  | 5 => 31 | 6 => 30 | 7 => 31 | 8 => 31 | 9 => 30 | 10 => 31
  | 11 => 30 | 12 => 31
  | _ => 0

/-- Days in the years before year `y` (Python `date.toordinal` arithmetic). -/
def daysBeforeYear (y : Nat) : Nat :=
  365 * (y - 1) + (y - 1) / 4 - (y - 1) / 100 + (y - 1) / 400

/-- Python `date.toordinal`: `0001-01-01` is day 1. -/
def toOrdinal (dt : Date) : Nat :=
  daysBeforeYear dt.year + daysBeforeMonth dt.year dt.month + dt.day

/-- Python `date.weekday`: Monday = 0 … Sunday = 6. -/
def weekday (dt : Date) : Nat := (toOrdinal dt + 6) % 7

/-- Order-preserving key of a parsed (midnight) datetime. -/
def dateKey (dt : Date) : Nat := 2 * toOrdinal dt

/-- Key of `datetime.max`: strictly above the key of every date that the
4-digit-year `strptime` formats can produce (their ordinals are `< 3653000`). -/
def dtMaxKey : Nat := 2 * 3653000 + 1

/-! ### The `strptime` fragments used by the script -/

/-- Case-insensitive match against a lowercase ASCII letter (the effect of
`re.IGNORECASE` on the locale month / AM-PM names). -/
def ciEq (c a : Char) : Bool := c = a || c = Char.ofNat (a.toNat - 32)

/-- `%b`: abbreviated month name, case-insensitive (C locale). -/
def month3 (c1 c2 c3 : Char) : Option Nat :=
  if ciEq c1 'j' && ciEq c2 'a' && ciEq c3 'n' then some 1
  else if ciEq c1 'f' && ciEq c2 'e' && ciEq c3 'b' then some 2
  else if ciEq c1 'm' && ciEq c2 'a' && ciEq c3 'r' then some 3
  else if ciEq c1 'a' && ciEq c2 'p' && ciEq c3 'r' then some 4
  else if ciEq c1 'm' && ciEq c2 'a' && ciEq c3 'y' then some 5
  else if ciEq c1 'j' && ciEq c2 'u' && ciEq c3 'n' then some 6
  else if ciEq c1 'j' && ciEq c2 'u' && ciEq c3 'l' then some 7
  else if ciEq c1 'a' && ciEq c2 'u' && ciEq c3 'g' then some 8
  else if ciEq c1 's' && ciEq c2 'e' && ciEq c3 'p' then some 9
  else if ciEq c1 'o' && ciEq c2 'c' && ciEq c3 't' then some 10
  else if ciEq c1 'n' && ciEq c2 'o' && ciEq c3 'v' then some 11
  else if ciEq c1 'd' && ciEq c2 'e' && ciEq c3 'c' then some 12
  else none

def parseB : List Char → Option (Nat × List Char)
  | c1 :: c2 :: c3 :: rest =>
    match month3 c1 c2 c3 with
    | some m => some (m, rest)
    | none => none
  | _ => none

/-- `\s+` in a `strptime` pattern (whitespace in the format string): at least
one whitespace character, consumed greedily (every continuation in the
formats used here starts with a non-whitespace character). -/
def parseSpaces1 : List Char → Option (List Char)
  | c :: rest => if isPySpace c then some (rest.dropWhile isPySpace) else none
  | [] => none

/-- `%d`: `(3[01]|[12]\d|0[1-9]|[1-9])`.  Deterministic here because each
alternative is followed by a non-digit literal in the formats used. -/
def parseDay : List Char → Option (Nat × List Char)
  | c1 :: c2 :: rest =>
    if c1 = '3' && (c2 = '0' || c2 = '1') then some (30 + digitVal c2, rest)
    else if (c1 = '1' || c1 = '2') && isDig c2 then
      some (10 * digitVal c1 + digitVal c2, rest)
    else if c1 = '0' && isDig19 c2 then some (digitVal c2, rest)
    else if isDig19 c1 then some (digitVal c1, c2 :: rest)
    else none
  | [c1] => if isDig19 c1 then some (digitVal c1, []) else none
  | [] => none

/-- `%I` and `%m`: `(1[0-2]|0[1-9]|[1-9])`. -/
def parseNum1to12 : List Char → Option (Nat × List Char)
  | c1 :: c2 :: rest =>
    if c1 = '1' && (c2 = '0' || c2 = '1' || c2 = '2') then
      some (10 + digitVal c2, rest)
    else if c1 = '0' && isDig19 c2 then some (digitVal c2, rest)
    else if isDig19 c1 then some (digitVal c1, c2 :: rest)
    else none
  | [c1] => if isDig19 c1 then some (digitVal c1, []) else none
  | [] => none

/-- `%M`: `([0-5]\d|\d)`. -/
def parseMin : List Char → Option (Nat × List Char)
  | c1 :: c2 :: rest =>
    if isDig05 c1 && isDig c2 then some (10 * digitVal c1 + digitVal c2, rest)
    else if isDig c1 then some (digitVal c1, c2 :: rest)
    else none
  | [c1] => if isDig c1 then some (digitVal c1, []) else none
  | [] => none

/-- `%Y`: exactly four digits. -/
def parseYear4 : List Char → Option (Nat × List Char)
  | c1 :: c2 :: c3 :: c4 :: rest =>
    if isDig c1 && isDig c2 && isDig c3 && isDig c4 then
      some (1000 * digitVal c1 + 100 * digitVal c2 + 10 * digitVal c3 +
        digitVal c4, rest)
    else none
  | _ => none

/-- `%p`: `am`/`pm`, case-insensitive; `true` means PM. -/
def parseAmPm : List Char → Option (Bool × List Char)
  | c1 :: c2 :: rest =>
    if ciEq c1 'a' && ciEq c2 'm' then some (false, rest)
    else if ciEq c1 'p' && ciEq c2 'm' then some (true, rest)
    else none
  | _ => none

/-- 12-hour to 24-hour conversion performed by `strptime` for `%I`+`%p`. -/
def convHour12 (pm : Bool) (h : Nat) : Nat :=
  if pm then (if h = 12 then 12 else h + 12) else (if h = 12 then 0 else h)

/-- `datetime.strptime(s, "%I:%M %p").hour * 60 + .minute`, or `none` when the
whole string does not match the format. -/
def strptimeIMp (cs : List Char) : Option Nat :=
  match parseNum1to12 cs with
  | some (h, ':' :: r1) =>
    match parseMin r1 with
    | some (mi, r2) =>
      match parseSpaces1 r2 with
      | some r3 =>
        match parseAmPm r3 with
        | some (pm, []) => some (convHour12 pm h * 60 + mi)
        | _ => none
      | none => none
    | none => none
  | _ => none

/-- `datetime.strptime(s, "%b %d, %Y")` as a date, or `none` on `ValueError`
(format mismatch, year 0, or day out of range for the month). -/
def strptimeBdY (cs : List Char) : Option Date :=
  (parseB cs).bind fun mr =>
    (parseSpaces1 mr.2).bind fun r2 =>
      (parseDay r2).bind fun dr =>
        (match dr.2 with
          | ',' :: r4 => some r4
          | _ => none).bind fun r4 =>
          (parseSpaces1 r4).bind fun r5 =>
            (parseYear4 r5).bind fun yr =>
              match yr.2 with
              | [] =>
                if 1 ≤ yr.1 ∧ dr.1 ≤ daysInMonth yr.1 mr.1 then
                  some ⟨yr.1, mr.1, dr.1⟩
                else none
              | _ => none

/-- `datetime.strptime(s, "%Y-%m-%d")` as a date, or `none` on `ValueError`. -/
def strptimeYmd (s : String) : Option Date :=
  match parseYear4 s.data with
  | some (y, '-' :: r1) =>
    match parseNum1to12 r1 with
    | some (m, '-' :: r2) =>
      match parseDay r2 with
      | some (d, []) =>
        if 1 ≤ y ∧ d ≤ daysInMonth y m then some ⟨y, m, d⟩ else none
      | _ => none
    | _ => none
  | _ => none

example : pyStrip " 2:00 PM ".data = "2:00 PM".data := by decide
example : splitCh [',', ' '] "Monday, Aug 1, 2025".data =
    ["Monday".data, "Aug 1".data, "2025".data] := by decide
example : splitCh [' ', '-', ' '] "2:00 PM - 3:30 PM".data =
    ["2:00 PM".data, "3:30 PM".data] := by decide
example : pyWords "a b  c".data = ["a".data, "b".data, "c".data] := by decide
example : toOrdinal ⟨2025, 8, 4⟩ = 739467 := by decide
example : weekday ⟨2025, 8, 4⟩ = 0 := by decide
example : strptimeIMp "2:00 PM".data = some 840 := by decide
example : strptimeIMp "12:05 am".data = some 5 := by decide
example : strptimeIMp "13:00 PM".data = none := by decide
example : strptimeBdY "Aug 1, 2025".data = some ⟨2025, 8, 1⟩ := by decide
example : strptimeBdY "Feb 30, 2025".data = none := by decide
example : strptimeYmd "2025-08-04" = some ⟨2025, 8, 4⟩ := by decide
example : strptimeYmd "2025-13-04" = none := by decide

/-! ### The scraper's pure functions, translated from `script.py` -/

/-- `script.py` lines 9–27: `parse_time_to_minutes`. -/
def parse_time_to_minutes (time_str : String) : Nat :=
  if time_str = "" ∨ time_str = "No time found" then 0
  else
    let time_parts := splitCh [' ', '-', ' '] time_str.data
    let start_time := pyStrip (time_parts.headD [])
    match strptimeIMp start_time with
    | some n => n
    | none => 0

/-- The shared date-recovery step of `parse_date_for_sorting`, `sort_key`
and the filter loop: split on `", "`, take segments 1 and 2, rejoin with
`", "` and parse with `"%b %d, %Y"`.  `none` covers both the `IndexError`
(fewer than three segments) and the `strptime` `ValueError`. -/
def parse_date_segments (s : String) : Option Date :=
  match splitCh [',', ' '] s.data with
  | _ :: p1 :: p2 :: _ => strptimeBdY (p1 ++ [',', ' '] ++ p2)
  | _ => none

/-- `script.py` lines 45–51: `parse_date_for_sorting`, as an order key
(`none`/exception → `datetime.max`, modelled by `dtMaxKey`). -/
def parse_date_for_sorting (date_str : String) : Nat :=
  match parse_date_segments date_str with
  | some d => dateKey d
  | none => dtMaxKey

/-- One scraped event record (`script.py` lines 351–359): every field is
always present, holding a sentinel string when extraction failed. -/
structure Event where
  url : String
  title : String
  date : String
  time : String
  location : String
  location_link : String
  description : String
deriving DecidableEq, Repr

/-- `script.py` lines 187–199: the `sort_key` closure inside
`filter_events_by_week` (date key, then start-time minutes). -/
def sort_key (e : Event) : Nat × Nat :=
  if e.date = "No date found" then (dtMaxKey, 0)
  else
    match parse_date_segments e.date with
    | some d => (dateKey d, parse_time_to_minutes e.time)
    | none => (dtMaxKey, 0)

/-- Lexicographic comparison of Python tuples `(datetime, int)`. -/
def pairLe (p q : Nat × Nat) : Prop :=
  p.1 < q.1 ∨ (p.1 = q.1 ∧ p.2 ≤ q.2)

def sortKeyLe (a b : Event) : Prop := pairLe (sort_key a) (sort_key b)

instance : DecidableRel sortKeyLe := fun a b =>
  inferInstanceAs (Decidable (_ ∨ _))

instance : IsTotal Event sortKeyLe :=
  ⟨fun a b => by unfold sortKeyLe pairLe; omega⟩

instance : IsTrans Event sortKeyLe :=
  ⟨fun a b c => by unfold sortKeyLe pairLe; omega⟩

/-- `script.py` lines 144–148: the weekday-name table. -/
def dayIndex (s : String) : Option Nat :=
  if s = "Monday" then some 0
  else if s = "Tuesday" then some 1
  else if s = "Wednesday" then some 2
  else if s = "Thursday" then some 3
  else if s = "Friday" then some 4
  else if s = "Saturday" then some 5
  else if s = "Sunday" then some 6
  else none

/-- `script.py` lines 150–162: `week_start`/`week_end` as ordinals.
`day_mapping.get(week_start_day, 0)` defaults unknown names to Monday;
`%` on `Int` is Python's nonnegative-remainder `%`. -/
def week_bounds (td : Date) (week_start_day : String) : Int × Int :=
  let week_start_num : Nat := (dayIndex week_start_day).getD 0
  let days_since_week_start : Int :=
    ((weekday td : Int) - (week_start_num : Int)) % 7
  let week_start : Int := (toOrdinal td : Int) - days_since_week_start
  (week_start, week_start + 6)

/-- `script.py` lines 140–203: `filter_events_by_week`. -/
def filter_events_by_week (events_data : List Event)
    (target_week_start week_start_day : String) : List Event :=
  match strptimeYmd target_week_start with
  | none => []
  | some target_date =>
    let wb := week_bounds target_date week_start_day
    let filtered := events_data.filter fun e =>
      !(e.date == "No date found") &&
        (match parse_date_segments e.date with
         | some d =>
           decide (wb.1 ≤ (toOrdinal d : Int) ∧ (toOrdinal d : Int) ≤ wb.2)
         | none => false)
    List.insertionSort sortKeyLe filtered

def timeLe (a b : Event) : Prop :=
  parse_time_to_minutes a.time ≤ parse_time_to_minutes b.time

instance : DecidableRel timeLe := fun a b =>
  inferInstanceAs (Decidable (_ ≤ _))

instance : IsTotal Event timeLe := ⟨fun a b => Nat.le_total _ _⟩

instance : IsTrans Event timeLe := ⟨fun _ _ _ => Nat.le_trans⟩

def dateLe (a b : String) : Prop :=
  parse_date_for_sorting a ≤ parse_date_for_sorting b

instance : DecidableRel dateLe := fun a b =>
  inferInstanceAs (Decidable (_ ≤ _))

instance : IsTotal String dateLe := ⟨fun a b => Nat.le_total _ _⟩

instance : IsTrans String dateLe := ⟨fun _ _ _ => Nat.le_trans⟩

/-- First-occurrence deduplication (insertion order of a Python dict). -/
def dedupFirstAux : List String → List String → List String
  | [], _ => []
  | k :: rest, seen =>
    if k ∈ seen then dedupFirstAux rest seen
    else k :: dedupFirstAux rest (k :: seen)

def dedupFirst (l : List String) : List String := dedupFirstAux l []

/-- `script.py` lines 29–60: `organize_events_by_date`, as the ordered
key-group pairs of the returned (insertion-ordered) dict. -/
def organize_events_by_date (events_data : List Event) :
    List (String × List Event) :=
  let keys := dedupFirst (events_data.map fun e => e.date)
  let sorted_dates := List.insertionSort dateLe keys
  sorted_dates.map fun k =>
    (k, List.insertionSort timeLe (events_data.filter fun e => e.date == k))

/-! ### Description extraction (`script.py` lines 62–138)

The HTML library is an external collaborator; a parsed document is modelled
by the text values its selector queries return, in document order:
for each `div.container`, its stripped full text and the stripped texts of
its `p`, `p > i`, `ul > li` and `p > a` matches; plus, when a `main > div`
exists, the raw `.string` values of its direct children that have one. -/

structure Container where
  text : String
  pTexts : List String
  piTexts : List String
  liTexts : List String
  paTexts : List String
deriving DecidableEq, Repr

structure Soup where
  containers : List Container
  mainDiv : Option (List String)
deriving DecidableEq, Repr

/-- One guarded append: `if t and t not in acc and len(t) > minLen`. -/
def pushIf (minLen : Nat) (acc : List String) (t : String) : List String :=
  if t ≠ "" ∧ t ∉ acc ∧ minLen < t.length then acc ++ [t] else acc

/-- Cases 1–4 for one container (skipped when its text is empty). -/
def containerStep (acc : List String) (c : Container) : List String :=
  if c.text = "" then acc
  else
    let a1 := c.pTexts.foldl (pushIf 10) acc
    let a2 := c.piTexts.foldl (pushIf 5) a1
    let a3 := c.liTexts.foldl (pushIf 5) a2
    c.paTexts.foldl (pushIf 5) a3

/-- Case 5: direct text children of `main > div`. -/
def mainPush (acc : List String) (s : String) : List String :=
  if s ≠ "" ∧ pyStrip s.data ≠ [] then
    pushIf 10 acc (String.mk (pyStrip s.data))
  else acc

/-- All candidate strings, in collection order. -/
def collectParts (soup : Soup) : List String :=
  let base := soup.containers.foldl containerStep []
  match soup.mainDiv with
  | none => base
  | some strs => strs.foldl mainPush base

/-- The navigation/boilerplate denylist, verbatim from the source (including
its duplicated entry). -/
def skipList : List String :=
  ["open", "close", "menu", "navigation", "contact us", "get involved",
   "submit a request", "careers", "about us", "site feedback", "events",
   "disclaimer", "privacy policy", "accessibility policy", "your city hall",
   "strategic priorities", "city management", "departments",
   "council and commissions", "transparency", "get involved",
   "participating in government", "working at the city"]

/-- `any(skip in part.lower() for skip in [...])`. -/
def isNavText (part : String) : Bool :=
  skipList.any fun skip => listContains (toLowerL part.data) skip.data

/-- `len(part.split()) > 20 and any(word in part.lower() for word in ...)`. -/
def isLinkList (part : String) : Bool :=
  decide (20 < (pyWords part.data).length) &&
    (["services", "programs", "departments"].any fun w =>
      listContains (toLowerL part.data) w.data)

def filteredParts (soup : Soup) : List String :=
  (collectParts soup).filter fun part => !isNavText part && !isLinkList part

/-- `script.py` lines 62–138: `extract_description`. -/
def extract_description (soup : Soup) : String :=
  let fp := filteredParts soup
  if fp ≠ [] then String.intercalate " " fp else "No description found"

/-! ### The per-link scraping loop (`script.py` lines 283–371)

Retrieval and field extraction for one event URL are an external effect;
they are modelled by an oracle returning the successfully built record, or
`none` when any exception was raised for that link. -/

/-- The record appended in the `except` branch (lines 363–371). -/
def failedEvent (event_url : String) : Event :=
  { url := event_url
    title := "Failed to scrape title"
    date := "Failed to scrape date"
    time := "Failed to scrape time"
    location := "Failed to scrape location"
    location_link := "Failed to scrape location link"
    description := "Failed to scrape description" }

/-- The `for i, event_url in enumerate(event_links)` loop body. -/
def scrape_events (event_links : List String)
    (fetch : String → Option Event) : List Event :=
  event_links.map fun u =>
    match fetch u with
    | some ev => ev
    | none => failedEvent u

example :
    filter_events_by_week
      [{ url := "u", title := "t", date := "Monday, Aug 4, 2025",
         time := "2:00 PM", location := "l", location_link := "ll",
         description := "d" }]
      "2025-08-04" "Monday" =
    [{ url := "u", title := "t", date := "Monday, Aug 4, 2025",
       time := "2:00 PM", location := "l", location_link := "ll",
       description := "d" }] := by decide

/-! ### Lemmas about `splitCh` and `listContains` -/

theorem splitChAux_nil (sep : List Char) (fuel : Nat) :
    splitChAux sep fuel [] = [[]] := by
  cases fuel <;> simp [splitChAux]

theorem splitChAux_fuel (sep : List Char) :
    ∀ f1 f2 (cs : List Char), cs.length ≤ f1 → cs.length ≤ f2 →
      splitChAux sep f1 cs = splitChAux sep f2 cs := by
  intro f1
  induction f1 with
  | zero =>
    intro f2 cs h1 _
    have hcs : cs = [] := List.eq_nil_of_length_eq_zero (Nat.le_zero.mp h1)
    subst hcs
    simp [splitChAux_nil, splitChAux]
  | succ f ih =>
    intro f2 cs h1 h2
    cases cs with
    | nil => simp [splitChAux_nil]
    | cons c rest =>
      cases f2 with
      | zero => simp at h2
      | succ g =>
        simp only [splitChAux]
        by_cases hc : sep ≠ [] ∧ sep.isPrefixOf (c :: rest) ∧ c :: rest ≠ []
        · rw [if_pos hc, if_pos hc]
          have hsep : 0 < sep.length := List.length_pos.mpr hc.1
          have hdrop : ((c :: rest).drop sep.length).length ≤ f := by
            simp only [List.length_drop, List.length_cons]
            simp only [List.length_cons] at h1
            omega
          have hdrop2 : ((c :: rest).drop sep.length).length ≤ g := by
            simp only [List.length_drop, List.length_cons]
            simp only [List.length_cons] at h2
            omega
          rw [ih g _ hdrop hdrop2]
        · rw [if_neg hc, if_neg hc]
          have hr1 : rest.length ≤ f := by
            simp only [List.length_cons] at h1; omega
          have hr2 : rest.length ≤ g := by
            simp only [List.length_cons] at h2; omega
          rw [ih g rest hr1 hr2]

theorem splitChAux_single (sep : List Char) :
    ∀ fuel (cs : List Char), cs.length ≤ fuel →
      (∀ t, t <:+ cs → sep.isPrefixOf t = false) →
      splitChAux sep fuel cs = [cs] := by
  intro fuel
  induction fuel with
  | zero => intro cs _ _; simp [splitChAux]
  | succ f ih =>
    intro cs hl h
    have hpre : sep.isPrefixOf cs = false := h cs List.suffix_rfl
    simp only [splitChAux, hpre]
    cases cs with
    | nil => simp
    | cons c rest =>
      have : splitChAux sep f rest = [rest] := by
        apply ih
        · simp only [List.length_cons] at hl; omega
        · intro t ht
          exact h t (ht.trans (List.suffix_cons c rest))
      simp [this]

theorem splitCh_single (sep cs : List Char)
    (h : ∀ t, t <:+ cs → sep.isPrefixOf t = false) :
    splitCh sep cs = [cs] :=
  splitChAux_single sep cs.length cs le_rfl h

theorem isPrefixOf_append_self (sep r : List Char) :
    sep.isPrefixOf (sep ++ r) = true := by
  induction sep with
  | nil => simp [List.isPrefixOf]
  | cons c t ih => simp [List.isPrefixOf, ih]

theorem splitChAux_append (sep : List Char) (hsep : sep ≠ []) :
    ∀ (base : List Char) fuel (rest : List Char),
      (base ++ sep ++ rest).length ≤ fuel →
      (∀ t, t <:+ base → t ≠ [] →
        sep.isPrefixOf (t ++ sep ++ rest) = false) →
      splitChAux sep fuel (base ++ sep ++ rest) =
        base :: splitChAux sep rest.length rest := by
  intro base
  induction base with
  | nil =>
    intro fuel rest hl h
    cases fuel with
    | zero =>
      exfalso
      have : 0 < sep.length := List.length_pos.mpr hsep
      simp only [List.nil_append, List.length_append, Nat.le_zero] at hl
      omega
    | succ f =>
      have hcond : sep ≠ [] ∧ sep.isPrefixOf ([] ++ sep ++ rest) ∧
          ([] : List Char) ++ sep ++ rest ≠ [] := by
        refine ⟨hsep, ?_, ?_⟩
        · simp [isPrefixOf_append_self]
        · simp [hsep]
      simp only [splitChAux, if_pos hcond]
      have hdrop : ([] ++ sep ++ rest).drop sep.length = rest := by
        simp [List.drop_left]
      rw [hdrop]
      have : 0 < sep.length := List.length_pos.mpr hsep
      simp only [List.length_append, List.nil_append] at hl
      rw [splitChAux_fuel sep f rest.length rest (by omega) le_rfl]
  | cons c b ih =>
    intro fuel rest hl h
    cases fuel with
    | zero =>
      exfalso
      simp [List.length_append] at hl
    | succ f =>
      have hpre : sep.isPrefixOf ((c :: b) ++ sep ++ rest) = false :=
        h (c :: b) List.suffix_rfl (by simp)
      have hcond : ¬(sep ≠ [] ∧ sep.isPrefixOf ((c :: b) ++ sep ++ rest) ∧
          (c :: b) ++ sep ++ rest ≠ []) := by
        intro hc
        rw [hpre] at hc
        exact absurd hc.2.1 (by simp)
      simp only [splitChAux, if_neg hcond]
      have hrec : splitChAux sep f (b ++ sep ++ rest) =
          b :: splitChAux sep rest.length rest := by
        apply ih
        · simp only [List.length_append, List.length_cons] at hl ⊢; omega
        · intro t ht htne
          exact h t (ht.trans (List.suffix_cons c b)) htne
      show (match splitChAux sep f (b ++ sep ++ rest) with
        | s :: ss => (c :: s) :: ss
        | [] => [[c]]) = (c :: b) :: splitChAux sep rest.length rest
      rw [hrec]

theorem splitCh_append (sep base rest : List Char) (hsep : sep ≠ [])
    (h : ∀ t, t <:+ base → t ≠ [] →
      sep.isPrefixOf (t ++ sep ++ rest) = false) :
    splitCh sep (base ++ sep ++ rest) = base :: splitCh sep rest :=
  splitChAux_append sep hsep base _ rest le_rfl h

theorem listContains_eq_false (hay needle : List Char)
    (h : listContains hay needle = false) :
    ∀ t, t <:+ hay → needle.isPrefixOf t = false := by
  induction hay with
  | nil =>
    intro t ht
    rw [List.suffix_nil.mp ht]
    unfold listContains at h
    cases hp : needle.isPrefixOf ([] : List Char) with
    | false => rfl
    | true => rw [hp] at h; simp at h
  | cons c hay ih =>
    intro t ht
    unfold listContains at h
    cases hp : needle.isPrefixOf (c :: hay) with
    | true => rw [hp] at h; simp at h
    | false =>
      rw [hp] at h
      simp only [Bool.false_eq_true, if_false] at h
      rcases List.suffix_cons_iff.mp ht with rfl | ht'
      · exact hp
      · exact ih h t ht'

/-! ### Digit-character lemmas -/

theorem digitVal_le_nine (c : Char) : digitVal c ≤ 9 := by
  unfold digitVal; split_ifs <;> omega

theorem digitVal_digitChar {k : Nat} (hk : k ≤ 9) :
    digitVal (digitChar k) = k := by
  interval_cases k <;> rfl

theorem isDig_digitChar {k : Nat} (hk : k ≤ 9) :
    isDig (digitChar k) = true := by
  interval_cases k <;> rfl

theorem isDig05_digitChar {k : Nat} (hk : k ≤ 5) :
    isDig05 (digitChar k) = true := by
  interval_cases k <;> rfl

theorem isPySpace_digitChar {k : Nat} (hk : k ≤ 9) :
    isPySpace (digitChar k) = false := by
  interval_cases k <;> rfl

theorem digitChar_ne_comma (k : Nat) : digitChar k ≠ ',' := by
  unfold digitChar; split <;> decide

/-! ### Canonical well-formed date/time strings

These builders produce exactly the string shapes named by the specification
("Monday, Aug 1, 2025", "2:00 PM", "HH:MM AM/PM", …); the lemmas below show
how the translated `strptime` fragments behave on them. -/

def monthAbbr : Nat → List Char
  | 1 => ['J', 'a', 'n'] | 2 => ['F', 'e', 'b'] | 3 => ['M', 'a', 'r']
  | 4 => ['A', 'p', 'r'] | 5 => ['M', 'a', 'y'] | 6 => ['J', 'u', 'n']
  | 7 => ['J', 'u', 'l'] | 8 => ['A', 'u', 'g'] | 9 => ['S', 'e', 'p']
  | 10 => ['O', 'c', 't'] | 11 => ['N', 'o', 'v'] | 12 => ['D', 'e', 'c']
  | _ => []

/-- Day of month, unpadded (`"1"`, `"31"`). -/
def dayChars (d : Nat) : List Char :=
  if d < 10 then [digitChar d] else [digitChar (d / 10), digitChar (d % 10)]

/-- Four-digit year. -/
def yearChars (y : Nat) : List Char :=
  [digitChar (y / 1000), digitChar (y / 100 % 10), digitChar (y / 10 % 10),
   digitChar (y % 10)]

/-- 12-hour hour, unpadded (`"2"`) or zero-padded (`"02"`). -/
def hourChars (pad : Bool) (h : Nat) : List Char :=
  if 10 ≤ h then ['1', digitChar (h - 10)]
  else if pad then ['0', digitChar h] else [digitChar h]

def apChars (pm : Bool) : List Char := if pm then ['P', 'M'] else ['A', 'M']

/-- `"H:MM AM/PM"` / `"HH:MM AM/PM"`. -/
def timeStrOf (pad : Bool) (h mi : Nat) (pm : Bool) : List Char :=
  hourChars pad h ++ ':' :: digitChar (mi / 10) :: digitChar (mi % 10) ::
    ' ' :: apChars pm

/-- `"<weekday>, <Mon> <d>, <yyyy>"`. -/
def dateStrOf (w : String) (m d y : Nat) : String :=
  String.mk (w.data ++ [',', ' '] ++ (monthAbbr m ++ ' ' :: dayChars d) ++
    [',', ' '] ++ yearChars y)

theorem parseB_monthAbbr {m : Nat} (hm1 : 1 ≤ m) (hm : m ≤ 12)
    (r : List Char) : parseB (monthAbbr m ++ r) = some (m, r) := by
  interval_cases m <;> rfl

theorem parseDay_dayChars {d : Nat} (hd1 : 1 ≤ d) (hd : d ≤ 31)
    (r : List Char) : parseDay (dayChars d ++ ',' :: r) = some (d, ',' :: r) := by
  interval_cases d <;> rfl

theorem parseNum1to12_hourChars {h : Nat} (h1 : 1 ≤ h) (h12 : h ≤ 12)
    (pad : Bool) (r : List Char) :
    parseNum1to12 (hourChars pad h ++ ':' :: r) = some (h, ':' :: r) := by
  cases pad <;> interval_cases h <;> rfl

theorem parseMin_minChars {mi : Nat} (hmi : mi ≤ 59) (r : List Char) :
    parseMin (digitChar (mi / 10) :: digitChar (mi % 10) :: r) =
      some (mi, r) := by
  have hd5 : isDig05 (digitChar (mi / 10)) = true := isDig05_digitChar (by omega)
  have hd9 : isDig (digitChar (mi % 10)) = true := isDig_digitChar (by omega)
  have e1 : digitVal (digitChar (mi / 10)) = mi / 10 := digitVal_digitChar (by omega)
  have e2 : digitVal (digitChar (mi % 10)) = mi % 10 := digitVal_digitChar (by omega)
  simp [parseMin, hd5, hd9, e1, e2]
  omega

theorem parseYear4_yearChars {y : Nat} (hy : y ≤ 9999) (r : List Char) :
    parseYear4 (yearChars y ++ r) = some (y, r) := by
  have h1 : isDig (digitChar (y / 1000)) = true := isDig_digitChar (by omega)
  have h2 : isDig (digitChar (y / 100 % 10)) = true := isDig_digitChar (by omega)
  have h3 : isDig (digitChar (y / 10 % 10)) = true := isDig_digitChar (by omega)
  have h4 : isDig (digitChar (y % 10)) = true := isDig_digitChar (by omega)
  have e1 : digitVal (digitChar (y / 1000)) = y / 1000 := digitVal_digitChar (by omega)
  have e2 : digitVal (digitChar (y / 100 % 10)) = y / 100 % 10 := digitVal_digitChar (by omega)
  have e3 : digitVal (digitChar (y / 10 % 10)) = y / 10 % 10 := digitVal_digitChar (by omega)
  have e4 : digitVal (digitChar (y % 10)) = y % 10 := digitVal_digitChar (by omega)
  simp [yearChars, parseYear4, h1, h2, h3, h4, e1, e2, e3, e4]
  omega

theorem parseYear4_yearChars_end {y : Nat} (hy : y ≤ 9999) :
    parseYear4 (yearChars y) = some (y, []) := by
  have := parseYear4_yearChars hy []
  rwa [List.append_nil] at this

theorem parseSpaces1_dayChars {d : Nat} (hd1 : 1 ≤ d) (hd : d ≤ 31)
    (r : List Char) :
    parseSpaces1 (' ' :: (dayChars d ++ r)) = some (dayChars d ++ r) := by
  interval_cases d <;> rfl

theorem parseSpaces1_yearChars {y : Nat} (hy : y ≤ 9999) :
    parseSpaces1 (' ' :: yearChars y) = some (yearChars y) := by
  have h1 : isPySpace (digitChar (y / 1000)) = false :=
    isPySpace_digitChar (by omega)
  simp [yearChars, parseSpaces1, List.dropWhile_cons, h1,
    show isPySpace ' ' = true from rfl]

theorem parseSpaces1_apChars (pm : Bool) :
    parseSpaces1 (' ' :: apChars pm) = some (apChars pm) := by
  cases pm <;> rfl

theorem parseAmPm_apChars (pm : Bool) : parseAmPm (apChars pm) = some (pm, []) := by
  cases pm <;> rfl

theorem daysInMonth_le (y m : Nat) : daysInMonth y m ≤ 31 := by
  unfold daysInMonth
  split <;> (try split_ifs) <;> omega

theorem strptimeIMp_timeStrOf {h mi : Nat} (h1 : 1 ≤ h) (h12 : h ≤ 12)
    (hmi : mi ≤ 59) (pad pm : Bool) :
    strptimeIMp (timeStrOf pad h mi pm) = some (convHour12 pm h * 60 + mi) := by
  simp [strptimeIMp, timeStrOf, parseNum1to12_hourChars h1 h12,
    parseMin_minChars hmi, parseSpaces1_apChars, parseAmPm_apChars]

theorem strptimeBdY_canonical {m d y : Nat} (hm1 : 1 ≤ m) (hm : m ≤ 12)
    (hd1 : 1 ≤ d) (hd : d ≤ daysInMonth y m) (hy1 : 1 ≤ y) (hy : y ≤ 9999) :
    strptimeBdY (monthAbbr m ++ ' ' ::
      (dayChars d ++ ',' :: ' ' :: yearChars y)) = some ⟨y, m, d⟩ := by
  have hd31 : d ≤ 31 := le_trans hd (daysInMonth_le y m)
  simp [strptimeBdY, parseB_monthAbbr hm1 hm,
    parseSpaces1_dayChars hd1 hd31, parseDay_dayChars hd1 hd31,
    parseSpaces1_yearChars hy, parseYear4_yearChars_end hy, hy1, hd]

/-! ### Every parseable date sorts strictly below `datetime.max` -/

theorem monthBase_le (m : Nat) : monthBase m ≤ 334 := by
  unfold monthBase; split <;> omega

theorem parseDay_le {cs : List Char} {d : Nat} {r : List Char}
    (h : parseDay cs = some (d, r)) : d ≤ 99 := by
  rcases cs with _ | ⟨c1, _ | ⟨c2, rest⟩⟩
  · simp [parseDay] at h
  · simp only [parseDay] at h
    split_ifs at h <;>
      first
        | exact Option.noConfusion h
        | (injection h with hpair
           injection hpair with hv hr
           subst hv
           have b1 := digitVal_le_nine c1
           omega)
  · simp only [parseDay] at h
    split_ifs at h <;>
      first
        | exact Option.noConfusion h
        | (injection h with hpair
           injection hpair with hv hr
           subst hv
           have b1 := digitVal_le_nine c1
           have b2 := digitVal_le_nine c2
           omega)

theorem parseYear4_le {cs : List Char} {y : Nat} {r : List Char}
    (h : parseYear4 cs = some (y, r)) : y ≤ 9999 := by
  rcases cs with _ | ⟨c1, _ | ⟨c2, _ | ⟨c3, _ | ⟨c4, rest⟩⟩⟩⟩
  · simp [parseYear4] at h
  · simp [parseYear4] at h
  · simp [parseYear4] at h
  · simp [parseYear4] at h
  · simp only [parseYear4] at h
    split_ifs at h <;>
      first
        | exact Option.noConfusion h
        | (injection h with hpair
           injection hpair with hv hr
           subst hv
           have b1 := digitVal_le_nine c1
           have b2 := digitVal_le_nine c2
           have b3 := digitVal_le_nine c3
           have b4 := digitVal_le_nine c4
           omega)

theorem toOrdinal_lt {y m d : Nat} (hy : y ≤ 9999) (hd : d ≤ 99) :
    toOrdinal ⟨y, m, d⟩ < 3653000 := by
  unfold toOrdinal daysBeforeYear daysBeforeMonth
  have h365 : 365 * (y - 1) ≤ 3649270 := by omega
  have h4 : (y - 1) / 4 ≤ 2499 := by omega
  have h400 : (y - 1) / 400 ≤ 24 := by omega
  have hmb : monthBase m ≤ 334 := monthBase_le m
  have hleap : (if 2 < m ∧ isLeap y then 1 else 0) ≤ 1 := by split <;> omega
  dsimp only
  omega

theorem strptimeBdY_dateKey_lt {cs : List Char} {dt : Date}
    (h : strptimeBdY cs = some dt) : dateKey dt < dtMaxKey := by
  unfold strptimeBdY at h
  simp only [Option.bind_eq_some] at h
  obtain ⟨⟨m, r1⟩, hB, r2, hS1, ⟨d, r3⟩, hD, r4, hC, r5, hS2, ⟨y, r6⟩, hY,
    hfin⟩ := h
  rcases r6 with _ | ⟨c6, r7⟩
  · split_ifs at hfin
    injection hfin with hdt
    subst hdt
    have hym := parseYear4_le hY
    have hdd := parseDay_le hD
    have := toOrdinal_lt (m := m) hym hdd
    unfold dateKey dtMaxKey
    dsimp only
    omega
  · exact Option.noConfusion hfin

theorem parse_date_segments_dateKey_lt {s : String} {d : Date}
    (h : parse_date_segments s = some d) : dateKey d < dtMaxKey := by
  unfold parse_date_segments at h
  rcases hsp : splitCh [',', ' '] s.data with _ | ⟨p0, _ | ⟨p1, _ | ⟨p2, ps⟩⟩⟩ <;>
    rw [hsp] at h <;> simp only [] at h
  · exact absurd h (by simp)
  · exact absurd h (by simp)
  · exact absurd h (by simp)
  · exact strptimeBdY_dateKey_lt h

theorem parse_date_for_sorting_le (s : String) :
    parse_date_for_sorting s ≤ dtMaxKey := by
  unfold parse_date_for_sorting
  cases h : parse_date_segments s with
  | none => exact le_refl _
  | some d => exact le_of_lt (parse_date_segments_dateKey_lt h)

/-! ### Junction conditions for the separator `", "` -/

theorem commaSpace_junction (w rest : List Char)
    (h1 : listContains w [',', ' '] = false) :
    ∀ t, t <:+ w → t ≠ [] →
      [',', ' '].isPrefixOf (t ++ [',', ' '] ++ rest) = false := by
  intro t ht htne
  match t, htne with
  | c :: t0, _ =>
    cases t0 with
    | nil => simp [List.isPrefixOf]
    | cons c2 t1 =>
      by_cases hc : c = ',' ∧ c2 = ' '
      · exfalso
        have hpre : [',', ' '].isPrefixOf (c :: c2 :: t1) = true := by
          rw [hc.1, hc.2]; simp [List.isPrefixOf]
        have hfalse := listContains_eq_false w [',', ' '] h1 (c :: c2 :: t1) ht
        rw [hpre] at hfalse
        simp at hfalse
      · rcases not_and_or.mp hc with hx | hx
        · have hb : ((',' : Char) == c) = false :=
            beq_eq_false_iff_ne.mpr (Ne.symm hx)
          simp [List.isPrefixOf, hb]
        · have hb : ((' ' : Char) == c2) = false :=
            beq_eq_false_iff_ne.mpr (Ne.symm hx)
          simp [List.isPrefixOf, hb]

theorem no_comma_junction (base rest : List Char) (h : ',' ∉ base) :
    ∀ t, t <:+ base → t ≠ [] →
      [',', ' '].isPrefixOf (t ++ [',', ' '] ++ rest) = false := by
  intro t ht htne
  match t, htne with
  | c :: t0, _ =>
    have hc : c ≠ ',' := fun hcc =>
      h (hcc ▸ ht.subset (List.mem_cons_self c t0))
    have hb : ((',' : Char) == c) = false :=
      beq_eq_false_iff_ne.mpr (Ne.symm hc)
    simp [List.isPrefixOf, hb]

theorem no_comma_single (cs : List Char) (h : ',' ∉ cs) :
    ∀ t, t <:+ cs → [',', ' '].isPrefixOf t = false := by
  intro t ht
  cases t with
  | nil => rfl
  | cons c t0 =>
    have hc : c ≠ ',' := fun hcc =>
      h (hcc ▸ ht.subset (List.mem_cons_self c t0))
    have hb : ((',' : Char) == c) = false :=
      beq_eq_false_iff_ne.mpr (Ne.symm hc)
    simp [List.isPrefixOf, hb]

theorem comma_not_mem_monthAbbr {m : Nat} (hm1 : 1 ≤ m) (hm : m ≤ 12) :
    ',' ∉ monthAbbr m := by
  interval_cases m <;> decide

theorem comma_not_mem_dayChars (d : Nat) : ',' ∉ dayChars d := by
  unfold dayChars
  split <;> intro hmem <;> simp only [List.mem_cons, List.mem_singleton,
    List.not_mem_nil, or_false] at hmem
  · exact digitChar_ne_comma d hmem.symm
  · rcases hmem with hmem | hmem
    · exact digitChar_ne_comma (d / 10) hmem.symm
    · exact digitChar_ne_comma (d % 10) hmem.symm

theorem comma_not_mem_yearChars (y : Nat) : ',' ∉ yearChars y := by
  unfold yearChars
  intro hmem
  simp only [List.mem_cons, List.not_mem_nil, or_false] at hmem
  rcases hmem with hmem | hmem | hmem | hmem <;>
    exact digitChar_ne_comma _ hmem.symm

/-- Splitting a canonical date string on `", "` recovers exactly its three
segments, provided the weekday part does not itself contain `", "`. -/
theorem splitCh_dateStrOf (w : String) {m d y : Nat}
    (hm1 : 1 ≤ m) (hm : m ≤ 12)
    (hw : listContains w.data [',', ' '] = false) :
    splitCh [',', ' '] (dateStrOf w m d y).data =
      [w.data, monthAbbr m ++ ' ' :: dayChars d, yearChars y] := by
  have hmid : ',' ∉ monthAbbr m ++ ' ' :: dayChars d := by
    intro hmem
    rcases List.mem_append.mp hmem with hmem | hmem
    · exact comma_not_mem_monthAbbr hm1 hm hmem
    · rcases List.mem_cons.mp hmem with hmem | hmem
      · exact absurd hmem (by decide)
      · exact comma_not_mem_dayChars d hmem
  have hdata : (dateStrOf w m d y).data =
      (w.data ++ [',', ' ']) ++
        (((monthAbbr m ++ ' ' :: dayChars d) ++ [',', ' ']) ++ yearChars y) := by
    show (w.data ++ [',', ' '] ++ (monthAbbr m ++ ' ' :: dayChars d) ++
      [',', ' '] ++ yearChars y) = _
    simp [List.append_assoc]
  rw [hdata]
  rw [splitCh_append [',', ' '] w.data _ (by simp)
    (commaSpace_junction w.data _ hw)]
  rw [splitCh_append [',', ' '] (monthAbbr m ++ ' ' :: dayChars d)
    (yearChars y) (by simp) (no_comma_junction _ _ hmid)]
  rw [splitCh_single [',', ' '] (yearChars y)
    (no_comma_single _ (comma_not_mem_yearChars y))]

/-- The date parser of the script maps every canonically written
`"<weekday>, <Mon> <d>, <yyyy>"` string to the denoted calendar date. -/
theorem parse_date_segments_canonical (w : String) {m d y : Nat}
    (hm1 : 1 ≤ m) (hm : m ≤ 12) (hd1 : 1 ≤ d) (hd : d ≤ daysInMonth y m)
    (hy1 : 1 ≤ y) (hy : y ≤ 9999)
    (hw : listContains w.data [',', ' '] = false) :
    parse_date_segments (dateStrOf w m d y) = some ⟨y, m, d⟩ := by
  unfold parse_date_segments
  rw [splitCh_dateStrOf w hm1 hm hw]
  show strptimeBdY ((monthAbbr m ++ ' ' :: dayChars d) ++ [',', ' '] ++
    yearChars y) = some ⟨y, m, d⟩
  have e : (monthAbbr m ++ ' ' :: dayChars d) ++ [',', ' '] ++ yearChars y =
      monthAbbr m ++ ' ' :: (dayChars d ++ ',' :: ' ' :: yearChars y) := by
    simp [List.append_assoc]
  rw [e]
  exact strptimeBdY_canonical hm1 hm hd1 hd hy1 hy

/-! ### Deduplication and guarded-append lemmas -/

theorem mem_dedupFirstAux {a : String} :
    ∀ (l seen : List String), a ∈ dedupFirstAux l seen ↔ a ∈ l ∧ a ∉ seen := by
  intro l
  induction l with
  | nil => intro seen; simp [dedupFirstAux]
  | cons k rest ih =>
    intro seen
    unfold dedupFirstAux
    by_cases hk : k ∈ seen
    · rw [if_pos hk, ih]
      constructor
      · rintro ⟨ha, hns⟩
        exact ⟨List.mem_cons_of_mem k ha, hns⟩
      · rintro ⟨ha, hns⟩
        rcases List.mem_cons.mp ha with rfl | ha
        · exact absurd hk hns
        · exact ⟨ha, hns⟩
    · rw [if_neg hk]
      constructor
      · intro hmem
        rcases List.mem_cons.mp hmem with rfl | hmem
        · exact ⟨List.mem_cons_self _ _, hk⟩
        · rw [ih] at hmem
          refine ⟨List.mem_cons_of_mem k hmem.1, ?_⟩
          intro hs
          exact hmem.2 (List.mem_cons_of_mem k hs)
      · rintro ⟨ha, hns⟩
        rcases List.mem_cons.mp ha with rfl | ha
        · exact List.mem_cons_self _ _
        · by_cases hak : a = k
          · subst hak; exact List.mem_cons_self _ _
          · refine List.mem_cons_of_mem _ ?_
            rw [ih]
            refine ⟨ha, ?_⟩
            intro hs
            rcases List.mem_cons.mp hs with h1 | h1
            · exact hak h1
            · exact hns h1

theorem nodup_dedupFirstAux :
    ∀ (l seen : List String), (dedupFirstAux l seen).Nodup := by
  intro l
  induction l with
  | nil => intro seen; simp [dedupFirstAux]
  | cons k rest ih =>
    intro seen
    unfold dedupFirstAux
    by_cases hk : k ∈ seen
    · rw [if_pos hk]; exact ih seen
    · rw [if_neg hk]
      refine List.Nodup.cons ?_ (ih (k :: seen))
      intro hmem
      exact ((mem_dedupFirstAux rest (k :: seen)).mp hmem).2
        (List.mem_cons_self _ _)

theorem mem_dedupFirst {a : String} {l : List String} :
    a ∈ dedupFirst l ↔ a ∈ l := by
  unfold dedupFirst
  rw [mem_dedupFirstAux]
  simp

theorem nodup_dedupFirst (l : List String) : (dedupFirst l).Nodup :=
  nodup_dedupFirstAux l []

theorem pushIf_nodup {minLen : Nat} {acc : List String} {t : String}
    (h : acc.Nodup) : (pushIf minLen acc t).Nodup := by
  unfold pushIf
  split_ifs with hc
  · simp [List.nodup_append, h, hc.2.1]
  · exact h

theorem foldl_pushIf_nodup {minLen : Nat} :
    ∀ (ts : List String) (acc : List String), acc.Nodup →
      (ts.foldl (pushIf minLen) acc).Nodup := by
  intro ts
  induction ts with
  | nil => intro acc h; exact h
  | cons t rest ih => intro acc h; exact ih _ (pushIf_nodup h)

theorem containerStep_nodup {acc : List String} {c : Container}
    (h : acc.Nodup) : (containerStep acc c).Nodup := by
  unfold containerStep
  split_ifs
  · exact h
  · exact foldl_pushIf_nodup _ _ (foldl_pushIf_nodup _ _
      (foldl_pushIf_nodup _ _ (foldl_pushIf_nodup _ _ h)))

theorem mainPush_nodup {acc : List String} {s : String}
    (h : acc.Nodup) : (mainPush acc s).Nodup := by
  unfold mainPush
  split_ifs
  · exact pushIf_nodup h
  · exact h

theorem collectParts_nodup (soup : Soup) : (collectParts soup).Nodup := by
  unfold collectParts
  have hbase : ∀ (cs : List Container) (acc : List String), acc.Nodup →
      (cs.foldl containerStep acc).Nodup := by
    intro cs
    induction cs with
    | nil => intro acc h; exact h
    | cons c rest ih => intro acc h; exact ih _ (containerStep_nodup h)
  have hmain : ∀ (ss : List String) (acc : List String), acc.Nodup →
      (ss.foldl mainPush acc).Nodup := by
    intro ss
    induction ss with
    | nil => intro acc h; exact h
    | cons s rest ih => intro acc h; exact ih _ (mainPush_nodup h)
  cases soup.mainDiv with
  | none => exact hbase _ _ List.nodup_nil
  | some strs => exact hmain _ _ (hbase _ _ List.nodup_nil)

/-! ### Sample data used by the concrete parts of the claims -/

def evMonAug4 : Event :=
  { url := "u1", title := "Event A", date := "Monday, Aug 4, 2025",
    time := "2:00 PM - 3:30 PM", location := "loc", location_link := "ll",
    description := "desc" }

def evSunAug3 : Event :=
  { url := "u2", title := "Event B", date := "Sunday, Aug 3, 2025",
    time := "10:30 AM", location := "loc", location_link := "ll",
    description := "desc" }

def evMonAbbrAug4 : Event :=
  { url := "u3", title := "Event C", date := "Mon, Aug 4, 2025",
    time := "9:00 AM", location := "loc", location_link := "ll",
    description := "desc" }

/-- The seven weekday names, indexed as `day_mapping` indexes them. -/
def weekdayName : Fin 7 → String
  | 0 => "Monday" | 1 => "Tuesday" | 2 => "Wednesday" | 3 => "Thursday"
  | 4 => "Friday" | 5 => "Saturday" | 6 => "Sunday"

def soupEx : Soup :=
  { containers :=
      [{ text := "x",
         pTexts := ["Hello world event details", "Please Contact Us today"],
         piTexts := [], liTexts := [], paTexts := [] },
       { text := "x", pTexts := ["Hello world event details"],
         piTexts := [], liTexts := [], paTexts := [] }],
    mainDiv := none }

def fetchEx : String → Option Event :=
  fun u => if u = "a" then some evMonAug4 else none

/-! ### The claims -/

/-- C6: the date-parsing policy used by `organize_events_by_date`
(`parse_date_for_sorting`) and the date component of the `sort_key` closure
in `filter_events_by_week` compute identical results on every input string,
including the `datetime.max` sentinel on every unparsable string: the two
call sites behave as one shared routine. -/
theorem sort_key_date_shared (e : Event) :
    (sort_key e).1 = parse_date_for_sorting e.date := by
  unfold sort_key parse_date_for_sorting
  by_cases hdate : e.date = "No date found"
  · rw [hdate]
    have hnone : parse_date_segments "No date found" = none := by decide
    simp [hnone]
  · rw [if_neg hdate]
    cases h : parse_date_segments e.date <;> simp

/-- C10: calling `filter_events_by_week` with a `week_start_day` that is not
one of the seven weekday names does not fail; `day_mapping.get(…, 0)`
silently selects index 0, so the result is identical to passing
`"Monday"`. -/
theorem filter_week_default_day (events : List Event) (target ws : String)
    (h : ws ∉ ["Monday", "Tuesday", "Wednesday", "Thursday", "Friday",
      "Saturday", "Sunday"]) :
    filter_events_by_week events target ws =
      filter_events_by_week events target "Monday" := by
  simp only [List.mem_cons, List.not_mem_nil, or_false, not_or] at h
  obtain ⟨h1, h2, h3, h4, h5, h6, h7⟩ := h
  have hidx : dayIndex ws = none := by
    unfold dayIndex
    split_ifs <;> simp_all
  have hwb : ∀ td, week_bounds td ws = week_bounds td "Monday" := by
    intro td
    unfold week_bounds
    rw [hidx]
    rfl
  unfold filter_events_by_week
  cases htd : strptimeYmd target with
  | none => rfl
  | some td =>
    dsimp only
    rw [hwb td]

theorem filter_week_default_day_witness :
    ("Funday" ∉ ["Monday", "Tuesday", "Wednesday", "Thursday", "Friday",
      "Saturday", "Sunday"]) ∧
    filter_events_by_week [evMonAug4] "2025-08-04" "Funday" =
      filter_events_by_week [evMonAug4] "2025-08-04" "Monday" :=
  ⟨by decide, filter_week_default_day [evMonAug4] "2025-08-04" "Funday"
    (by decide)⟩

/-- C9: when fetching/extracting one event link fails, the batch is not
aborted: that link yields exactly the all-sentinel record (each field a
distinct `"Failed to scrape <field>"` string, the url kept), every other
link is processed as usual, and the output has one record per link. -/
theorem scrape_events_recovery (event_links : List String)
    (fetch : String → Option Event) :
    (scrape_events event_links fetch).length = event_links.length ∧
    (∀ (i : Nat) (u : String), event_links[i]? = some u → fetch u = none →
      (scrape_events event_links fetch)[i]? = some (failedEvent u)) ∧
    (∀ (i : Nat) (u : String) (ev : Event), event_links[i]? = some u →
      fetch u = some ev →
      (scrape_events event_links fetch)[i]? = some ev) ∧
    (∀ u, (failedEvent u).url = u) ∧
    ([(failedEvent "u").title, (failedEvent "u").date, (failedEvent "u").time,
      (failedEvent "u").location, (failedEvent "u").location_link,
      (failedEvent "u").description] : List String).Nodup := by
  refine ⟨by simp [scrape_events], ?_, ?_, fun u => rfl, by decide⟩
  · intro i u hu hf
    unfold scrape_events
    rw [List.getElem?_map, hu]
    simp [hf]
  · intro i u ev hu hf
    unfold scrape_events
    rw [List.getElem?_map, hu]
    simp [hf]

theorem scrape_events_recovery_witness :
    (["a", "b"][1]? = some "b") ∧ fetchEx "b" = none ∧
    (scrape_events ["a", "b"] fetchEx)[1]? = some (failedEvent "b") :=
  ⟨by decide, by decide,
    (scrape_events_recovery ["a", "b"] fetchEx).2.1 1 "b" (by decide)
      (by decide)⟩

/-- C5: `parse_time_to_minutes` returns 0 on the empty string, on the
sentinel `"No time found"`, and on every string whose start-of-range
portion fails to parse as a 12-hour clock time; being a total function it
never raises. -/
theorem parse_time_to_minutes_fallback :
    parse_time_to_minutes "" = 0 ∧
    parse_time_to_minutes "No time found" = 0 ∧
    ∀ s : String,
      strptimeIMp (pyStrip ((splitCh [' ', '-', ' '] s.data).headD [])) =
        none →
      parse_time_to_minutes s = 0 := by
  refine ⟨by decide, by decide, ?_⟩
  intro s h
  unfold parse_time_to_minutes
  split_ifs with hs
  · rfl
  · show (match strptimeIMp (pyStrip
        ((splitCh [' ', '-', ' '] s.data).headD [])) with
      | some n => n
      | none => 0) = 0
    rw [h]

theorem parse_time_to_minutes_fallback_witness :
    strptimeIMp (pyStrip
      ((splitCh [' ', '-', ' '] ("25:99 XM" : String).data).headD [])) =
        none ∧
    parse_time_to_minutes "25:99 XM" = 0 :=
  ⟨by decide, parse_time_to_minutes_fallback.2.2 "25:99 XM" (by decide)⟩

/-- C2: for every target date and every weekday name (with its
`day_mapping` index `i`), `filter_events_by_week` computes
`week_start = target − ((target.weekday() − i) mod 7)` days and
`week_end = week_start + 6`, so `week_start ≤ week_end` always and the span
is exactly 7 days inclusive; with `week_start_day = "Monday"` and
`target_week = "2025-08-04"` the window is 2025-08-04 … 2025-08-10, an
event dated `"Monday, Aug 4, 2025"` is included and one dated
`"Sunday, Aug 3, 2025"` is excluded. -/
theorem week_bounds_correct :
    (∀ (td : Date) (i : Fin 7),
      dayIndex (weekdayName i) = some (i : Nat) ∧
      (week_bounds td (weekdayName i)).1 =
        (toOrdinal td : Int) -
          (((weekday td : Int) - ((i : Nat) : Int)) % 7) ∧
      (week_bounds td (weekdayName i)).2 =
        (week_bounds td (weekdayName i)).1 + 6 ∧
      (week_bounds td (weekdayName i)).1 ≤
        (week_bounds td (weekdayName i)).2) ∧
    week_bounds ⟨2025, 8, 4⟩ "Monday" =
      ((toOrdinal ⟨2025, 8, 4⟩ : Int), (toOrdinal ⟨2025, 8, 10⟩ : Int)) ∧
    evMonAug4 ∈
      filter_events_by_week [evMonAug4, evSunAug3] "2025-08-04" "Monday" ∧
    evSunAug3 ∉
      filter_events_by_week [evMonAug4, evSunAug3] "2025-08-04" "Monday" := by
  refine ⟨?_, by decide, by decide, by decide⟩
  intro td i
  fin_cases i <;>
    exact ⟨by decide, rfl, rfl, by unfold week_bounds; dsimp only; omega⟩

/-- C4: on every string whose portion before the first `" - "` separator is
(after stripping) a well-formed 12-hour time `"H:MM AM/PM"` or
`"HH:MM AM/PM"`, `parse_time_to_minutes` returns the 24-hour
`hour * 60 + minute` of that start time; anything after the separator (an
end time) never affects the result. -/
theorem parse_time_to_minutes_valid (s : String) (pad pm : Bool)
    (h mi : Nat) (h1 : 1 ≤ h) (h12 : h ≤ 12) (hmi : mi ≤ 59)
    (hhead : pyStrip ((splitCh [' ', '-', ' '] s.data).headD []) =
      timeStrOf pad h mi pm) :
    parse_time_to_minutes s = convHour12 pm h * 60 + mi := by
  have hlen : 7 ≤ (timeStrOf pad h mi pm).length ∧
      (timeStrOf pad h mi pm).length ≤ 8 := by
    unfold timeStrOf hourChars apChars
    cases pm <;> split_ifs <;> simp
  have hs1 : s ≠ "" := by
    rintro rfl
    rw [show pyStrip ((splitCh [' ', '-', ' '] ("" : String).data).headD []) =
      [] from by decide] at hhead
    have := congrArg List.length hhead
    simp only [List.length_nil] at this
    omega
  have hs2 : s ≠ "No time found" := by
    rintro rfl
    rw [show pyStrip ((splitCh [' ', '-', ' ']
      ("No time found" : String).data).headD []) =
      ("No time found" : String).data from by decide] at hhead
    have := congrArg List.length hhead
    rw [show (("No time found" : String).data).length = 13 from by decide]
      at this
    omega
  unfold parse_time_to_minutes
  rw [if_neg (by simp [hs1, hs2])]
  show (match strptimeIMp (pyStrip
      ((splitCh [' ', '-', ' '] s.data).headD [])) with
    | some n => n
    | none => 0) = convHour12 pm h * 60 + mi
  rw [hhead, strptimeIMp_timeStrOf h1 h12 hmi]

theorem parse_time_to_minutes_valid_witness :
    (pyStrip ((splitCh [' ', '-', ' ']
      ("2:00 PM - 3:30 PM" : String).data).headD []) =
      timeStrOf false 2 0 true) ∧
    parse_time_to_minutes "2:00 PM - 3:30 PM" = 840 :=
  ⟨by decide, by
    have hv := parse_time_to_minutes_valid "2:00 PM - 3:30 PM" false true 2 0
      (by decide) (by decide) (by decide) (by decide)
    rwa [show convHour12 true 2 * 60 + 0 = 840 from by decide] at hv⟩

/-- C3: the date parser for sorting maps `"Monday, Aug 1, 2025"` to the
calendar date 2025-08-01; it maps every canonically written
`"<weekday>, <Mon> <d>, <yyyy>"` string (three `", "`-separated segments,
abbreviated-month format) to its denoted calendar date; and on every
string whose segments fail to parse (wrong segment count or unparsable
fragment, e.g. `"garbage"`) it returns the maximal `datetime.max`
sentinel, so such entries sort last. -/
theorem parse_date_for_sorting_correct :
    parse_date_for_sorting "Monday, Aug 1, 2025" = dateKey ⟨2025, 8, 1⟩ ∧
    parse_date_for_sorting "garbage" = dtMaxKey ∧
    (∀ (w : String) (m d y : Nat), 1 ≤ m → m ≤ 12 → 1 ≤ d →
      d ≤ daysInMonth y m → 1 ≤ y → y ≤ 9999 →
      listContains w.data [',', ' '] = false →
      parse_date_for_sorting (dateStrOf w m d y) = dateKey ⟨y, m, d⟩) ∧
    (∀ s : String, parse_date_segments s = none →
      parse_date_for_sorting s = dtMaxKey) := by
  refine ⟨by decide, by decide, ?_, ?_⟩
  · intro w m d y hm1 hm hd1 hd hy1 hy hw
    unfold parse_date_for_sorting
    rw [parse_date_segments_canonical w hm1 hm hd1 hd hy1 hy hw]
  · intro s hnone
    unfold parse_date_for_sorting
    rw [hnone]

theorem parse_date_for_sorting_correct_witness :
    (listContains ("Friday" : String).data [',', ' '] = false) ∧
    parse_date_for_sorting (dateStrOf "Friday" 8 15 2025) =
      dateKey ⟨2025, 8, 15⟩ :=
  ⟨by decide,
    parse_date_for_sorting_correct.2.2.1 "Friday" 8 15 2025 (by decide)
      (by decide) (by decide) (by decide) (by decide) (by decide)
      (by decide)⟩

/-- C1: for every events list and every valid target week,
`filter_events_by_week` returns exactly those input events whose date
field parses (three `", "`-separated segments, abbreviated-month format)
to a calendar date inside `[week_start, week_end]`; events whose date is
the `"No date found"` sentinel or fails to parse are silently excluded;
and the result is sorted ascending by the pair (parsed date, start-time
minutes), i.e. by `sort_key`. -/
theorem filter_events_by_week_correct (events : List Event)
    (target ws : String) (td : Date) (h : strptimeYmd target = some td) :
    (∀ e : Event,
      e ∈ filter_events_by_week events target ws ↔
        (e ∈ events ∧ ¬e.date = "No date found" ∧
          ∃ d, parse_date_segments e.date = some d ∧
            (week_bounds td ws).1 ≤ (toOrdinal d : Int) ∧
            (toOrdinal d : Int) ≤ (week_bounds td ws).2)) ∧
    List.Sorted sortKeyLe (filter_events_by_week events target ws) := by
  have heq : filter_events_by_week events target ws =
      List.insertionSort sortKeyLe (events.filter fun e =>
        !(e.date == "No date found") &&
          (match parse_date_segments e.date with
           | some d => decide ((week_bounds td ws).1 ≤ (toOrdinal d : Int) ∧
               (toOrdinal d : Int) ≤ (week_bounds td ws).2)
           | none => false)) := by
    unfold filter_events_by_week
    rw [h]
  rw [heq]
  constructor
  · intro e
    rw [(List.perm_insertionSort sortKeyLe _).mem_iff, List.mem_filter]
    constructor
    · rintro ⟨he, hp⟩
      rw [Bool.and_eq_true, Bool.not_eq_true', beq_eq_false_iff_ne] at hp
      obtain ⟨hne, hmatch⟩ := hp
      cases hd : parse_date_segments e.date with
      | none => rw [hd] at hmatch; simp at hmatch
      | some dd =>
        rw [hd] at hmatch
        simp only [decide_eq_true_eq] at hmatch
        exact ⟨he, hne, dd, rfl, hmatch.1, hmatch.2⟩
    · rintro ⟨he, hne, dd, hdd, hlo, hhi⟩
      refine ⟨he, ?_⟩
      rw [Bool.and_eq_true, Bool.not_eq_true', beq_eq_false_iff_ne]
      refine ⟨hne, ?_⟩
      rw [hdd]
      simp only [decide_eq_true_eq]
      exact ⟨hlo, hhi⟩
  · exact List.sorted_insertionSort sortKeyLe _

theorem filter_events_by_week_correct_witness :
    strptimeYmd "2025-08-04" = some ⟨2025, 8, 4⟩ ∧
    ((∀ e : Event,
      e ∈ filter_events_by_week [evMonAug4, evSunAug3] "2025-08-04"
          "Monday" ↔
        (e ∈ [evMonAug4, evSunAug3] ∧ ¬e.date = "No date found" ∧
          ∃ d, parse_date_segments e.date = some d ∧
            (week_bounds ⟨2025, 8, 4⟩ "Monday").1 ≤ (toOrdinal d : Int) ∧
            (toOrdinal d : Int) ≤ (week_bounds ⟨2025, 8, 4⟩ "Monday").2)) ∧
      List.Sorted sortKeyLe
        (filter_events_by_week [evMonAug4, evSunAug3] "2025-08-04"
          "Monday")) :=
  ⟨by decide,
    filter_events_by_week_correct [evMonAug4, evSunAug3] "2025-08-04"
      "Monday" ⟨2025, 8, 4⟩ (by decide)⟩

/-- C7: `organize_events_by_date` groups events by exact raw date-string
equality (so `"Monday, Aug 4, 2025"` and `"Mon, Aug 4, 2025"` form two
separate groups even though they denote the same day); within each group
events are sorted ascending by time-parser minutes; the groups are
iterated in ascending parsed-calendar-date order with unparsable
date-string keys last (they carry the maximal sentinel key, and once a
sentinel key appears every later key is a sentinel too); every input event
appears in the group of its own date string, and group keys are distinct. -/
theorem organize_events_by_date_correct (events : List Event) :
    List.Pairwise
      (fun a b => parse_date_for_sorting a.1 ≤ parse_date_for_sorting b.1)
      (organize_events_by_date events) ∧
    List.Pairwise
      (fun a b => parse_date_for_sorting a.1 = dtMaxKey →
        parse_date_for_sorting b.1 = dtMaxKey)
      (organize_events_by_date events) ∧
    ((organize_events_by_date events).map Prod.fst).Nodup ∧
    (∀ p ∈ organize_events_by_date events,
      (∀ e ∈ p.2, e.date = p.1) ∧ List.Pairwise timeLe p.2 ∧
        ∀ e ∈ p.2, e ∈ events) ∧
    (∀ e ∈ events, ∃ p ∈ organize_events_by_date events,
      p.1 = e.date ∧ e ∈ p.2) ∧
    organize_events_by_date [evMonAug4, evMonAbbrAug4] =
      [("Monday, Aug 4, 2025", [evMonAug4]),
       ("Mon, Aug 4, 2025", [evMonAbbrAug4])] := by
  have horg : organize_events_by_date events =
      (List.insertionSort dateLe
          (dedupFirst (events.map fun e => e.date))).map
        (fun k =>
          (k, List.insertionSort timeLe
            (events.filter fun e => e.date == k))) := rfl
  have hsd : List.Pairwise dateLe
      (List.insertionSort dateLe (dedupFirst (events.map fun e => e.date))) :=
    List.sorted_insertionSort dateLe _
  have hpair : List.Pairwise
      (fun a b => parse_date_for_sorting a.1 ≤ parse_date_for_sorting b.1)
      (organize_events_by_date events) := by
    rw [horg, List.pairwise_map]
    exact hsd
  refine ⟨hpair, ?_, ?_, ?_, ?_, by decide⟩
  · exact hpair.imp fun hab hmax =>
      Nat.le_antisymm (parse_date_for_sorting_le _) (hmax ▸ hab)
  · rw [horg, List.map_map]
    have : (Prod.fst ∘ fun k =>
        ((k, List.insertionSort timeLe (events.filter fun e => e.date == k))
          : String × List Event)) = id := rfl
    rw [this, List.map_id]
    exact ((List.perm_insertionSort dateLe _).nodup_iff).mpr
      (nodup_dedupFirst _)
  · intro p hp
    rw [horg] at hp
    obtain ⟨k, hk, rfl⟩ := List.mem_map.mp hp
    refine ⟨?_, List.sorted_insertionSort timeLe _, ?_⟩
    · intro e he
      rw [(List.perm_insertionSort timeLe _).mem_iff, List.mem_filter] at he
      exact eq_of_beq he.2
    · intro e he
      rw [(List.perm_insertionSort timeLe _).mem_iff, List.mem_filter] at he
      exact he.1
  · intro e he
    have hdk : e.date ∈ dedupFirst (events.map fun e => e.date) :=
      mem_dedupFirst.mpr (List.mem_map_of_mem _ he)
    have hsdm : e.date ∈
        List.insertionSort dateLe (dedupFirst (events.map fun e => e.date)) :=
      ((List.perm_insertionSort dateLe _).mem_iff).mpr hdk
    refine ⟨(e.date, List.insertionSort timeLe
      (events.filter fun e' => e'.date == e.date)), ?_, rfl, ?_⟩
    · rw [horg]
      exact List.mem_map_of_mem _ hsdm
    · rw [(List.perm_insertionSort timeLe _).mem_iff, List.mem_filter]
      exact ⟨he, by simp⟩

/-- C8: the description extractor never collects a string byte-identical to
one already collected, regardless of which step produced it (the collected
list is duplicate-free); after collection, every string whose lowercase
form contains a denylist phrase is excluded; the survivors keep collection
order (a sublist) and are joined with single spaces, and if nothing
survives the result is the sentinel `"No description found"`.  On the
sample document, two identical paragraphs in different containers yield a
single entry and the `"Contact Us"` paragraph is dropped. -/
theorem extract_description_correct :
    (∀ soup : Soup, (collectParts soup).Nodup) ∧
    (∀ (soup : Soup) (p : String), isNavText p = true →
      p ∉ filteredParts soup) ∧
    (∀ soup : Soup, List.Sublist (filteredParts soup) (collectParts soup)) ∧
    (∀ soup : Soup, filteredParts soup ≠ [] →
      extract_description soup =
        String.intercalate " " (filteredParts soup)) ∧
    (∀ soup : Soup, filteredParts soup = [] →
      extract_description soup = "No description found") ∧
    collectParts soupEx =
      ["Hello world event details", "Please Contact Us today"] ∧
    extract_description soupEx = "Hello world event details" := by
  refine ⟨collectParts_nodup, ?_, fun soup => List.filter_sublist _, ?_, ?_,
    by decide, by decide⟩
  · intro soup p hnav hmem
    unfold filteredParts at hmem
    rw [List.mem_filter] at hmem
    rw [hnav] at hmem
    simp at hmem
  · intro soup hne
    show (if filteredParts soup ≠ [] then
      String.intercalate " " (filteredParts soup)
      else "No description found") = _
    rw [if_pos hne]
  · intro soup hempty
    show (if filteredParts soup ≠ [] then
      String.intercalate " " (filteredParts soup)
      else "No description found") = _
    rw [if_neg (by simp [hempty])]

theorem extract_description_correct_witness :
    isNavText "Please Contact Us today" = true ∧
    "Please Contact Us today" ∉ filteredParts soupEx :=
  ⟨by decide,
    extract_description_correct.2.1 soupEx "Please Contact Us today"
      (by decide)⟩
